import Mathlib

/-
Verification of the container-storage encoding and contract-element registry
layer of the icon-service repository.

Shallow embedding conventions:
* Python byte strings produced by `str.encode()` are modelled as `List Char`
  (one `Char` per source character).  Every byte string manipulated by this
  layer is the UTF-8 encoding of a character string, and for two valid UTF-8
  encodings byte-level equality and byte-prefix coincide with character-level
  equality and character-prefix, so this granularity is faithful for the
  properties proved here.
* Python exceptions are modelled by `Except PyErr` results (or by an
  `Option PyErr` component when the mutated state survives the raise).
* Python integers are Lean `Int` (both are unbounded).
-/

namespace IconService

/-- Python exception classes that this layer can raise, at the granularity the
verification needs.  `iconScoreBaseException` is the `IconScoreBaseException`
imported by `icon_container_db.py`; `typeError`, `attributeError`,
`valueError` and `keyError` are the Python builtin exceptions. -/
inductive PyErr
  | iconScoreBaseException
  | illegalFormat
  | internalServiceError
  | invalidParameter
  | methodNotFound
  | typeError
  | attributeError
  | valueError
  | keyError
deriving DecidableEq

/-- Byte strings of this layer, at character granularity (see the header). -/
abbrev Bytes := List Char

deriving instance DecidableEq for Except

/-! ## Python `hex` and `int(_, 16)` -/

/-- Lowercase hexadecimal digit character for a value below 16, exactly the
digits Python's `hex` produces (`0`-`9`, then `a`-`f`). -/
def hexDigitChar (n : Nat) : Char :=
  if n < 10 then Char.ofNat (48 + n) else Char.ofNat (87 + n)

/-- Fuel-indexed most-significant-first hex digit expansion (the fuel makes
the definition structurally recursive; `hexDigits` supplies enough fuel). -/
def hexDigitsF : Nat → Nat → List Char
  | 0, _ => []
  | fuel + 1, n =>
    if n < 16 then [hexDigitChar n]
    else hexDigitsF fuel (n / 16) ++ [hexDigitChar (n % 16)]

/-- Hex digits of `n`, most significant first, no leading zeros
(`hexDigits 0 = ['0']`), exactly the digit part of Python's `hex`. -/
def hexDigits (n : Nat) : List Char := hexDigitsF (n + 1) n

/-- Python's `hex` builtin on an unbounded integer: `0x` + lowercase digits,
with a leading `-` for negative numbers and no zero padding. -/
def pyHex (i : Int) : Bytes :=
  if i < 0 then '-' :: '0' :: 'x' :: hexDigits i.natAbs
  else '0' :: 'x' :: hexDigits i.toNat

/-- Value of one hexadecimal digit character (`0`-`9`, `a`-`f`, `A`-`F`),
as accepted by Python's `int(_, 16)`. -/
def hexDigitVal (c : Char) : Option Nat :=
  if 48 ≤ c.toNat ∧ c.toNat ≤ 57 then some (c.toNat - 48)
  else if 97 ≤ c.toNat ∧ c.toNat ≤ 102 then some (c.toNat - 87)
  else if 65 ≤ c.toNat ∧ c.toNat ≤ 70 then some (c.toNat - 55)
  else none

/-- Accumulator pass over hex digit characters. -/
def parseHexAux (acc : Nat) : List Char → Option Nat
  | [] => some acc
  | c :: rest =>
    match hexDigitVal c with
    | some d => parseHexAux (acc * 16 + d) rest
    | none => none

/-- Parse a nonempty run of hex digit characters; `none` on an empty list or
any non-digit character. -/
def parseHexDigits : List Char → Option Nat
  | [] => none
  | l => parseHexAux 0 l

/-- Drop an optional `0x` / `0X` radix tag, as `int(_, 16)` allows. -/
def dropHexTag : List Char → List Char
  | '0' :: 'x' :: rest => rest
  | '0' :: 'X' :: rest => rest
  | l => l

/-- Python's `int(s, 16)`: optional sign, optional `0x`/`0X` tag, then at
least one hex digit; anything else raises `ValueError`.  (The builtin also
tolerates surrounding whitespace and `_` digit separators; no byte string in
this layer contains those, so they are not modelled.) -/
def pyIntBase16 (s : Bytes) : Except PyErr Int :=
  match s with
  | [] => .error .valueError
  | c :: rest =>
    if c = '-' then
      match parseHexDigits (dropHexTag rest) with
      | some n => .ok (-(n : Int))
      | none => .error .valueError
    else if c = '+' then
      match parseHexDigits (dropHexTag rest) with
      | some n => .ok (n : Int)
      | none => .error .valueError
    else
      match parseHexDigits (dropHexTag (c :: rest)) with
      | some n => .ok (n : Int)
      | none => .error .valueError

/-! ## Addresses

Modelled from the spec: `base/address.py` is not among the sources; the spec
(section 3, StorageValue) specifies only that an address has a canonical
textual form (`str(value)`) with `Address.from_string` recovering the address
from it, so an address is modelled as the carrier of that canonical text. -/

/-- Modelled from the spec: an account address, identified by its canonical
textual form. -/
structure Address where
  text : Bytes
deriving DecidableEq

/-- Modelled from the spec: `str(address)`, the canonical textual form. -/
def addressStr (a : Address) : Bytes := a.text

/-- Modelled from the spec: `Address.from_string`, inverse of `str`. -/
def addressFromString (s : Bytes) : Address := ⟨s⟩

/-! ## ContainerUtil key and value codecs (`icon_container_db.py`) -/

/-- A runtime value used as a container key.  The type variable `K` of the
source declares `int`, `str` and `Address`; `kother` stands for a key of any
other runtime type (the source's `__encode_key` dispatches on `isinstance`).
-/
inductive Key
  | kint (i : Int)
  | kstr (s : Bytes)
  | kaddr (a : Address)
  | kother
deriving DecidableEq

/-- A runtime value stored in a container, per the type variable `V` of the
source: `int`, `str`, `Address`, `bytes`, `bool`.  Raw `bytes` values reuse
the `Bytes` carrier (their payload is opaque to this layer). -/
inductive Value
  | vint (i : Int)
  | vstr (s : Bytes)
  | vaddr (a : Address)
  | vbool (b : Bool)
  | vbytes (bs : Bytes)
deriving DecidableEq

/-- The five `value_type` arguments the claims range over. -/
inductive VType
  | intT
  | strT
  | addrT
  | boolT
  | bytesT
deriving DecidableEq

/-- `ContainerUtil.__encode_key`: `hex(key)` for an `int`, the string itself
for a `str`, otherwise `IconScoreBaseException` — the `else` branch catches
`Address` keys too, since `Address` is neither an `int` nor a `str`. -/
def privEncodeKey : Key → Except PyErr Bytes
  | .kint i => .ok (pyHex i)
  | .kstr s => .ok s
  | .kaddr _ => .error .iconScoreBaseException
  | .kother => .error .iconScoreBaseException

/-- `ContainerUtil.encode_key`: the `__encode_key` rendering followed by the
single delimiter byte `|`, then `str.encode()`. -/
def encodeKey (k : Key) : Except PyErr Bytes := do
  let ks ← privEncodeKey k
  pure (ks ++ ['|'])

/-- Dynamic type of the object returned by `ContainerUtil.__encode_value`:
a `str` for the first four branches, the untouched `bytes` for a bytes
value. -/
inductive StrOrBytes
  | strObj (s : Bytes)
  | bytesObj (b : Bytes)
deriving DecidableEq

/-- `ContainerUtil.__encode_value`.  In the source the `isinstance(value,
int)` branch also captures `bool` values (Python's `bool` subclasses `int`)
with `hex(True) = '0x1'`, `hex(False) = '0x0'`, which is exactly what the
(dead) dedicated `bool` branch would produce, so both are rendered here as
`pyHex` of 0 or 1. -/
def privEncodeValue : Value → Except PyErr StrOrBytes
  | .vint i => .ok (.strObj (pyHex i))
  | .vbool b => .ok (.strObj (pyHex (if b then 1 else 0)))
  | .vstr s => .ok (.strObj s)
  | .vaddr a => .ok (.strObj (addressStr a))
  | .vbytes bs => .ok (.bytesObj bs)

/-- `ContainerUtil.encode_value`: calls `.encode()` on whatever
`__encode_value` returned.  A `str` result encodes to its UTF-8 bytes; a
`bytes` result has no `encode` attribute, so Python raises
`AttributeError` there. -/
def encodeValue (v : Value) : Except PyErr Bytes := do
  match ← privEncodeValue v with
  | .strObj s => pure s
  | .bytesObj _ => throw .attributeError

/-- `ContainerUtil.decode_object`.  A `None` stored value decodes to `None`.
The source tests `value_type` against the five type constants in two
`if`/`elif` chains (`int`/`str`/`Address`, then `bool`/`bytes`); because the
five constants are pairwise distinct the two chains together are equivalent
to the single dispatch written here. -/
def decodeObject (value : Option Bytes) (t : VType) : Except PyErr (Option Value) :=
  match value with
  | none => .ok none
  | some bs =>
    match t with
    | .intT => do pure (some (.vint (← pyIntBase16 bs)))
    | .strT => .ok (some (.vstr bs))
    | .addrT => .ok (some (.vaddr (addressFromString bs)))
    | .boolT => do pure (some (.vbool (decide ((← pyIntBase16 bs) ≠ 0))))
    | .bytesT => .ok (some (.vbytes bs))

/-! ## Arithmetic facts about the hex codec -/

theorem hexDigitsF_fuel_irrel (n : Nat) :
    ∀ f, n < f → hexDigitsF f n = hexDigitsF (n + 1) n := by
  induction n using Nat.strong_induction_on with
  | _ n ih =>
    intro f hf
    match f with
    | f + 1 =>
      by_cases h16 : n < 16
      · simp [hexDigitsF, h16]
      · have hdiv : n / 16 < n := Nat.div_lt_self (by omega) (by omega)
        simp only [hexDigitsF, h16, if_false]
        rw [ih (n / 16) hdiv f (by omega), ih (n / 16) hdiv n (by omega)]

theorem hexDigits_eq (n : Nat) :
    hexDigits n =
      if n < 16 then [hexDigitChar n]
      else hexDigits (n / 16) ++ [hexDigitChar (n % 16)] := by
  have h1 : hexDigits n =
      if n < 16 then [hexDigitChar n]
      else hexDigitsF n (n / 16) ++ [hexDigitChar (n % 16)] := rfl
  by_cases h16 : n < 16
  · rw [h1, if_pos h16, if_pos h16]
  · have hdiv : n / 16 < n := Nat.div_lt_self (by omega) (by omega)
    rw [h1, if_neg h16, if_neg h16, hexDigitsF_fuel_irrel (n / 16) n hdiv]
    rfl

theorem hexDigits_ne_nil (n : Nat) : hexDigits n ≠ [] := by
  rw [hexDigits_eq]
  split <;> simp

theorem hexDigitVal_hexDigitChar : ∀ d, d < 16 → hexDigitVal (hexDigitChar d) = some d := by
  decide

theorem hexDigitChar_ne_bar : ∀ d, d < 16 → hexDigitChar d ≠ '|' := by
  decide

theorem hexDigits_no_bar (n : Nat) : '|' ∉ hexDigits n := by
  induction n using Nat.strong_induction_on with
  | _ n ih =>
    rw [hexDigits_eq]
    by_cases h16 : n < 16
    · simpa [h16] using (hexDigitChar_ne_bar n h16).symm
    · have hdiv : n / 16 < n := Nat.div_lt_self (by omega) (by omega)
      simp only [h16, if_false, List.mem_append, List.mem_singleton]
      push_neg
      exact ⟨ih (n / 16) hdiv,
        (hexDigitChar_ne_bar (n % 16) (Nat.mod_lt n (by omega))).symm⟩

theorem parseHexAux_append (l1 l2 : List Char) :
    ∀ acc, parseHexAux acc (l1 ++ l2) =
      match parseHexAux acc l1 with
      | some a => parseHexAux a l2
      | none => none := by
  induction l1 with
  | nil => intro acc; simp [parseHexAux]
  | cons c rest ih =>
    intro acc
    simp only [List.cons_append, parseHexAux]
    cases hexDigitVal c with
    | none => rfl
    | some d => exact ih (acc * 16 + d)

theorem parseHexAux_hexDigits (n : Nat) :
    ∀ acc, parseHexAux acc (hexDigits n) =
      some (acc * 16 ^ (hexDigits n).length + n) := by
  induction n using Nat.strong_induction_on with
  | _ n ih =>
    intro acc
    rw [hexDigits_eq]
    by_cases h16 : n < 16
    · simp [h16, parseHexAux, hexDigitVal_hexDigitChar n h16]
    · have hdiv : n / 16 < n := Nat.div_lt_self (by omega) (by omega)
      simp only [h16, if_false]
      rw [parseHexAux_append, ih (n / 16) hdiv acc]
      simp only [parseHexAux, hexDigitVal_hexDigitChar (n % 16) (Nat.mod_lt n (by omega))]
      congr 1
      have hmod : 16 * (n / 16) + n % 16 = n := Nat.div_add_mod n 16
      have hpow : 16 ^ ((hexDigits (n / 16)).length + 1) =
          16 ^ (hexDigits (n / 16)).length * 16 := by
        rw [Nat.pow_succ]
      simp only [List.length_append, List.length_singleton, hpow]
      ring_nf
      omega

theorem parseHexDigits_hexDigits (n : Nat) : parseHexDigits (hexDigits n) = some n := by
  have hne := hexDigits_ne_nil n
  have heq : parseHexDigits (hexDigits n) = parseHexAux 0 (hexDigits n) := by
    cases h : hexDigits n with
    | nil => exact absurd h hne
    | cons c rest => rfl
  rw [heq, parseHexAux_hexDigits n 0]
  simp

theorem pyIntBase16_pyHex (i : Int) : pyIntBase16 (pyHex i) = .ok i := by
  by_cases hneg : i < 0
  · have habs : (-((i.natAbs : Nat) : Int)) = i := by omega
    simp only [pyHex, hneg, if_true, pyIntBase16, dropHexTag,
      parseHexDigits_hexDigits i.natAbs, habs, reduceIte]
  · have htn : ((i.toNat : Nat) : Int) = i := by omega
    simp only [pyHex, hneg, if_false, pyIntBase16, dropHexTag,
      parseHexDigits_hexDigits i.toNat, htn, reduceIte]
    rw [if_neg (by decide), if_neg (by decide)]

theorem pyHex_injective {i j : Int} (h : pyHex i = pyHex j) : i = j := by
  have := pyIntBase16_pyHex i
  rw [h, pyIntBase16_pyHex j] at this
  exact (Except.ok.injEq _ _).mp this |>.symm

theorem pyHex_no_bar (i : Int) : '|' ∉ pyHex i := by
  unfold pyHex
  split
  · simp only [List.mem_cons]
    push_neg
    exact ⟨by decide, by decide, by decide, hexDigits_no_bar _⟩
  · simp only [List.mem_cons]
    push_neg
    exact ⟨by decide, by decide, hexDigits_no_bar _⟩

/-- Appending the same delimiter, absent from both payloads, preserves and
reflects equality of the payloads even through byte-prefix: if `a ++ [d]` is
a prefix of `b ++ [d]` and `d` occurs in neither `a` nor `b`, then `a = b`.
-/
theorem append_delim_payload_inj {a b : Bytes} {d : Char}
    (hb : d ∉ b) (h : (a ++ [d]) <+: (b ++ [d])) : a = b := by
  obtain ⟨t, ht⟩ := h
  rcases List.eq_nil_or_concat t with rfl | ⟨t', x, rfl⟩
  · rw [List.append_nil] at ht
    exact List.append_left_inj [d] |>.mp ht
  · exfalso
    rw [List.concat_eq_append, ← List.append_assoc] at ht
    obtain ⟨hpre, _⟩ := List.append_inj' ht (by simp)
    apply hb
    rw [← hpre]
    simp

/-! ## The underlying key-value store

Modelled from the spec: the raw store (`database/db.py`) is an external
collaborator (spec section 6) exposing `get`, `put` and `get_sub_db`, where
`get_sub_db(prefix_key)` returns a handle scoped under that byte prefix.  A
handle is modelled as its accumulated byte prefix and the store as an
association list from full byte key to byte value. -/

/-- Modelled from the spec: a namespaced store handle — the byte prefix
accumulated by successive `get_sub_db` calls. -/
abbrev SubDB := Bytes

/-- Modelled from the spec: the backing key-value store. -/
abbrev Store := List (Bytes × Bytes)

/-- Modelled from the spec: `db.get_sub_db(key)` narrows the handle. -/
def getSubDB (d : SubDB) (k : Bytes) : SubDB := d ++ k

/-- Modelled from the spec: `db.put(key, value)` under a handle. -/
def storePut (s : Store) (d : SubDB) (k v : Bytes) : Store :=
  (d ++ k, v) :: s.filter (fun p => !(p.1 == d ++ k))

/-- Modelled from the spec: `db.get(key)` under a handle; `None` if absent.
-/
def storeGet (s : Store) (d : SubDB) (k : Bytes) : Option Bytes :=
  (s.find? (fun p => p.1 == d ++ k)).map (fun p => p.2)

/-! ## DictDB (`icon_container_db.py`, lines 112-152) -/

/-- The `keys` argument of `DictDB.__setitem__` / `__getitem__`: `None`, a
single key object, or a tuple of keys. -/
inductive KeysArg
  | noneArg
  | single (k : Key)
  | tup (ks : List Key)
deriving DecidableEq

/-- State of a `DictDB` after a successful `__init__`: the namespaced child
handle, the declared value type and the declared depth. -/
structure DictDBState where
  db : SubDB
  valueType : VType
  depth : Nat
deriving DecidableEq

/-- `DictDB.__init__`: derives the child handle from the encoded `var_key`
(a `str`, so encoding succeeds) and records value type and depth. -/
def dictDBInit (varKey : Bytes) (db : SubDB) (vt : VType) (depth : Nat) :
    Except PyErr DictDBState := do
  let bk ← encodeKey (.kstr varKey)
  pure ⟨getSubDB db bk, vt, depth⟩

/-- The call `DictDB.__check_tuple_keys(keys)` as written on lines 120 and
131 of the source.  `__check_tuple_keys` is an instance method declared as
`def __check_tuple_keys(self, keys)`, but both call sites invoke it on the
class, passing the single argument `keys`.  Python binds that argument to
`self` and finds the required positional parameter `keys` missing, so the
call itself raises `TypeError` before the method body ever runs, whatever
the argument is. -/
def dictCheckTupleKeysCall (_keys : KeysArg) : Except PyErr (List Key) :=
  .error .typeError

/-- Successively narrow a handle through `get_sub_db(encode_key(key))` for
each leading key (lines 124-125 / 135-136). -/
def walkSubDB : SubDB → List Key → Except PyErr SubDB
  | d, [] => pure d
  | d, k :: rest => do walkSubDB (getSubDB d (← encodeKey k)) rest

/-- `DictDB.__setitem__`.  The first statement is the unbound
`__check_tuple_keys` call, which always raises `TypeError`; the remainder
(transcribed from lines 122-128, with `*keys, last_key = keys` raising
`ValueError` on an empty tuple) is therefore unreachable. -/
def dictSetItem (store : Store) (d : DictDBState) (keys : KeysArg) (v : Value) :
    Except PyErr Store := do
  let ks ← dictCheckTupleKeysCall keys
  match ks.reverse with
  | [] => throw .valueError
  | lastKey :: revFront => do
    let sub ← walkSubDB d.db revFront.reverse
    let bv ← encodeValue v
    let bk ← encodeKey lastKey
    pure (storePut store sub bk bv)

/-- `DictDB.__getitem__`; like `__setitem__`, the unbound
`__check_tuple_keys` call on line 131 always raises `TypeError` first. -/
def dictGetItem (store : Store) (d : DictDBState) (keys : KeysArg) :
    Except PyErr (Option Value) := do
  let ks ← dictCheckTupleKeysCall keys
  match ks.reverse with
  | [] => throw .valueError
  | lastKey :: revFront => do
    let sub ← walkSubDB d.db revFront.reverse
    let bk ← encodeKey lastKey
    decodeObject (storeGet store sub bk) d.valueType

/-! ## ListDB (`icon_container_db.py`, lines 155-183) -/

/-- State of a `ListDB` after a (hypothetically) successful `__init__`. -/
structure ListDBState where
  db : SubDB
  size : Int
  valueType : VType
deriving DecidableEq

/-- The reserved length-counter key (`ListDB.__SIZE`). -/
def listSizeKey : Bytes := "size".data

/-- The call `ListDB.__get_size()` on line 160 of the source.
`__get_size` is an instance method declared as `def __get_size(self)`, but
`__init__` invokes it on the class with no arguments, so the call raises
`TypeError` (missing required positional argument `self`) before the body
runs. -/
def listGetSizeUnboundCall : Except PyErr Int := .error .typeError

/-- `ListDB.__get_size` as its body is written (lines 175-180): decode the
stored counter as an `int`, defaulting to 0 when the stored value is absent
or falsy.  Unreachable through the constructor, which never gets past its
unbound call. -/
def listGetSizeBody (store : Store) (db : SubDB) : Except PyErr Int := do
  let k ← encodeKey (.kstr listSizeKey)
  match ← decodeObject (storeGet store db k) .intT with
  | some (.vint n) => pure (if n ≠ 0 then n else 0)
  | _ => pure 0

/-- `ListDB.__init__` (lines 158-161): derives the child handle, then calls
`ListDB.__get_size()` unbound, which raises `TypeError`, so construction
always fails. -/
def listDBInit (varKey : Bytes) (db : SubDB) (vt : VType) :
    Except PyErr ListDBState := do
  let bk ← encodeKey (.kstr varKey)
  let d := getSubDB db bk
  let size ← listGetSizeUnboundCall
  pure ⟨d, size, vt⟩

/-- `ListDB.put` (lines 163-167): writes the encoded value at the current
in-memory size used as an integer key, then increments the in-memory size.
Nothing is ever written under the reserved `size` key — `__set_size` is a
`pass` stub and is never called. -/
def listPut (store : Store) (l : ListDBState) (v : Value) :
    Except PyErr (Store × ListDBState) := do
  let bv ← encodeValue v
  let bk ← encodeKey (.kint l.size)
  pure (storePut store l.db bk bv, { l with size := l.size + 1 })

/-- `ListDB.pop` (lines 169-170): `raise NotImplemented()` attempts to call
the `NotImplemented` singleton, which is not callable, so Python raises
`TypeError` — not `NotImplementedError`. -/
def listPop (_l : ListDBState) : Except PyErr Value := .error .typeError

/-- `ListDB.get` (lines 172-173): same `raise NotImplemented()` statement,
same resulting `TypeError`. -/
def listGet (_l : ListDBState) (_keys : KeysArg) : Except PyErr Value :=
  .error .typeError

/-! ## Score capability flags and `verify_score_flag`
(`iconscore/typing/element.py`) -/

/-- Modelled from the spec: the `ScoreFlag` bitmask constants live in
`iconscore/icon_score_constant.py`, which is not among the sources; the spec
(sections 4.4 and 6) describes an integer bitmask over the five recognized
flags External, Payable, ReadOnly, EventLog and Interface, each one an
independent bit, so a flag combination is modelled as one boolean per
recognized bit. -/
structure ScoreFlag where
  readonly : Bool
  external : Bool
  payable : Bool
  eventlog : Bool
  interface : Bool
deriving DecidableEq, Fintype

/-- The pure `ScoreFlag.EVENTLOG` combination. -/
def eventlogOnly : ScoreFlag := ⟨false, false, false, true, false⟩

/-- The pure `ScoreFlag.INTERFACE` combination. -/
def interfaceOnly : ScoreFlag := ⟨false, false, false, false, true⟩

/-- `verify_score_flag` (element.py lines 104-123).  A bit test
`flag & ScoreFlag.X` is the corresponding boolean; `flag != ScoreFlag.X`
compares the whole combination. -/
def verifyScoreFlag (f : ScoreFlag) : Except PyErr Unit :=
  if f.readonly && f.payable then .error .illegalFormat
  else if f.readonly && !f.external then .error .illegalFormat
  else if f.eventlog && !(f == eventlogOnly) then .error .illegalFormat
  else if f.interface && !(f == interfaceOnly) then .error .illegalFormat
  else .ok ()

/-! ## ScoreElementContainer (`element.py` lines 184-257) -/

/-- A score element held by the container: a `Function` instance, an
`EventLog` instance, or some other `ScoreElement` (the `else` branch of
`__setitem__`).  Each carries the capability flags its origin callable was
tagged with (`ScoreElement.flag`), assumed fixed after creation. -/
inductive SElem
  | func (flag : ScoreFlag)
  | event (flag : ScoreFlag)
  | otherElem (flag : ScoreFlag)
deriving DecidableEq

/-- `ScoreElement.flag`: the flags of the element's origin callable. -/
def elemFlag : SElem → ScoreFlag
  | .func f => f
  | .event f => f
  | .otherElem f => f

/-- `ScoreElementContainer` state: the insertion-ordered `OrderedDict` of
elements, the two running counters (Python ints, so they may go negative),
and the `_readonly` flag. -/
structure SEC where
  elements : List (String × SElem)
  externals : Int
  eventlogs : Int
  readonly : Bool
deriving DecidableEq

/-- `ScoreElementContainer.__init__`. -/
def SEC.init : SEC := ⟨[], 0, 0, false⟩

/-- Whether the ordered dict holds key `k`. -/
def hasKey (l : List (String × SElem)) (k : String) : Bool :=
  l.any (fun p => p.1 == k)

/-- `OrderedDict.__setitem__`: replace in place if the key exists, else
append at the end. -/
def odSet (l : List (String × SElem)) (k : String) (v : SElem) :
    List (String × SElem) :=
  if hasKey l k then l.map (fun p => if p.1 == k then (k, v) else p)
  else l ++ [(k, v)]

/-- `OrderedDict.__getitem__` as an option. -/
def odGet (l : List (String × SElem)) (k : String) : Option SElem :=
  (l.find? (fun p => p.1 == k)).map (fun p => p.2)

/-- `del OrderedDict[k]`. -/
def odDel (l : List (String × SElem)) (k : String) : List (String × SElem) :=
  l.filter (fun p => !(p.1 == k))

/-- `ScoreElementContainer.__setitem__` (lines 205-214).  The writability
check runs first; then the element is stored, and only afterwards the
counter for its kind is bumped — for an element that is neither a
`Function` nor an `EventLog` the method raises after the element has
already been stored.  The result pairs the container as left by the call
with the exception it raised, if any. -/
def secSetItem (c : SEC) (k : String) (v : SElem) : SEC × Option PyErr :=
  if c.readonly then (c, some .internalServiceError)
  else
    let c1 := { c with elements := odSet c.elements k v }
    match v with
    | .func _ => ({ c1 with externals := c1.externals + 1 }, none)
    | .event _ => ({ c1 with eventlogs := c1.eventlogs + 1 }, none)
    | .otherElem _ => (c1, some .internalServiceError)

/-- `ScoreElementContainer.__delitem__` (lines 223-232).  After the
writability check, `self._elements[k]` raises `KeyError` for an absent key;
otherwise the entry is removed and the counter selected by the element's
EVENTLOG flag (not by its class) is decremented. -/
def secDelItem (c : SEC) (k : String) : SEC × Option PyErr :=
  if c.readonly then (c, some .internalServiceError)
  else
    match odGet c.elements k with
    | none => (c, some .keyError)
    | some e =>
      let c1 := { c with elements := odDel c.elements k }
      if (elemFlag e).eventlog then
        ({ c1 with eventlogs := c1.eventlogs - 1 }, none)
      else
        ({ c1 with externals := c1.externals - 1 }, none)

/-- `ScoreElementContainer.freeze`. -/
def secFreeze (c : SEC) : SEC := { c with readonly := true }

/-- Number of `Function` elements currently stored. -/
def countFuncs (l : List (String × SElem)) : Nat :=
  l.countP (fun p => match p.2 with | .func _ => true | _ => false)

/-- Number of `EventLog` elements currently stored. -/
def countEvents (l : List (String × SElem)) : Nat :=
  l.countP (fun p => match p.2 with | .event _ => true | _ => false)

/-- `create_score_element` (lines 260-266): an `EventLog` when the EVENTLOG
flag is on, else a `Function`. -/
def createScoreElement (flag : ScoreFlag) : SElem :=
  if flag.eventlog then .event flag else .func flag

/-- The name prefix that marks dunder members. -/
def dunderStr : String := "__"

/-- The class-member scan of `create_score_elements` (lines 245-254), over
the class modelled as its list of (name, flag) members (spec section 6: the
flags are attached externally before the scan; a member with no recognized
flag has all five bits off).  Dunder names are skipped; a member with at
least one of the `FUNC | EVENTLOG` bits is verified and stored. -/
def createGo : SEC → List (String × ScoreFlag) → Except PyErr SEC
  | c, [] => pure c
  | c, (name, flag) :: rest =>
    if dunderStr.data.isPrefixOf name.data then createGo c rest
    else if flag.readonly || flag.external || flag.payable || flag.eventlog then
      match verifyScoreFlag flag with
      | .error e => .error e
      | .ok () =>
        match secSetItem c name (createScoreElement flag) with
        | (c1, none) => createGo c1 rest
        | (_, some e) => .error e
    else createGo c rest

/-- `create_score_elements` (lines 242-257): scan the members into a fresh
container, then freeze it. -/
def createScoreElements (ms : List (String × ScoreFlag)) : Except PyErr SEC := do
  let c ← createGo SEC.init ms
  pure (secFreeze c)

/-! ## Sequences of container mutations (for the counter invariant) -/

/-- One externally invoked mutation of a `ScoreElementContainer`. -/
inductive SecOp
  | set (k : String) (v : SElem)
  | del (k : String)
deriving DecidableEq

/-- Run a sequence of mutations, keeping only executions in which every
call succeeds (raises no exception). -/
def secRun : SEC → List SecOp → Option SEC
  | c, [] => some c
  | c, .set k v :: rest =>
    match secSetItem c k v with
    | (c1, none) => secRun c1 rest
    | (_, some _) => none
  | c, .del k :: rest =>
    match secDelItem c k with
    | (c1, none) => secRun c1 rest
    | (_, some _) => none

/-- Like `secRun`, additionally restricted to executions in which every
`__setitem__` targets a key not already present (pure insertions, no
overwrites).  Every trace accepted here is also a successful `secRun`
trace (`secRunFresh_run`). -/
def secRunFresh : SEC → List SecOp → Option SEC
  | c, [] => some c
  | c, .set k v :: rest =>
    if hasKey c.elements k then none
    else
      match secSetItem c k v with
      | (c1, none) => secRunFresh c1 rest
      | (_, some _) => none
  | c, .del k :: rest =>
    match secDelItem c k with
    | (c1, none) => secRunFresh c1 rest
    | (_, some _) => none

/-- An element whose EVENTLOG capability bit agrees with its class:
`Function` elements without the bit, `EventLog` elements with it (exactly
the elements `create_score_element` builds). -/
def goodElem : SElem → Bool
  | .func f => !f.eventlog
  | .event f => f.eventlog
  | .otherElem _ => false

/-- A mutation whose inserted element, if any, is `goodElem`. -/
def goodOp : SecOp → Bool
  | .set _ v => goodElem v
  | .del _ => true

/-- The registry invariant: each counter equals the number of stored
elements of its kind, all stored elements are `goodElem`, and names are
unique. -/
def secInv (c : SEC) : Prop :=
  c.externals = (countFuncs c.elements : Int) ∧
  c.eventlogs = (countEvents c.elements : Int) ∧
  (∀ p ∈ c.elements, goodElem p.2 = true) ∧
  (c.elements.map Prod.fst).Nodup

/-! ## IconScoreException error-code banding (`base/exception.py`) -/

/-- `ExceptionCode.SCORE_ERROR`, the base of the user-error band. -/
def SCORE_ERROR_CODE : Int := 32

/-- `ExceptionCode.END`, the ceiling of the band. -/
def END_CODE : Int := 99

/-- The `index` argument of `IconScoreException.__init__`: an `int`, or an
object of any other type (rejected by the `isinstance` guard). -/
inductive IdxArg
  | intIdx (i : Int)
  | nonIntIdx
deriving DecidableEq

/-- `IconScoreException.__init__` (exception.py lines 176-184), reduced to
the code it hands to the base class: a non-`int` index raises
`InvalidParamsException` before any banding; otherwise the code is
`SCORE_ERROR + index`, raised to the band base when below it and clamped to
`END` when above it. -/
def iconScoreExceptionCode : IdxArg → Except PyErr Int
  | .nonIntIdx => .error .invalidParameter
  | .intIdx index =>
    let code : Int := SCORE_ERROR_CODE + index
    .ok (if code < SCORE_ERROR_CODE then SCORE_ERROR_CODE
         else if code > END_CODE then END_CODE else code)

/-! ## Helper lemmas about the codecs -/

theorem encodeKey_kint (i : Int) : encodeKey (.kint i) = .ok (pyHex i ++ ['|']) := rfl

theorem encodeKey_kstr (s : Bytes) : encodeKey (.kstr s) = .ok (s ++ ['|']) := rfl

theorem encodeKey_kaddr (a : Address) :
    encodeKey (.kaddr a) = .error .iconScoreBaseException := rfl

theorem encodeKey_kother : encodeKey .kother = .error .iconScoreBaseException := rfl

/-- Which keys the amended prefix-freeness property quantifies over: text
keys must not contain the delimiter byte `|`. -/
def barFree : Key → Bool
  | .kstr s => decide ('|' ∉ s)
  | _ => true

/-- The cross-type escape hatch of the amended property: a text key must
not spell the `hex` rendering of an integer key it is compared with. -/
def noHexCollision : Key → Key → Bool
  | .kint i, .kstr s => decide (s ≠ pyHex i)
  | .kstr s, .kint i => decide (s ≠ pyHex i)
  | _, _ => true

/-! ## Helper lemmas about the element container -/

theorem hasKey_false_not_mem {l : List (String × SElem)} {k : String}
    (h : hasKey l k = false) : ∀ p ∈ l, p.1 ≠ k := by
  intro p hp
  have := List.any_eq_false.mp h p hp
  simpa using this

theorem countP_odDel (k : String) (p0 : String × SElem)
    (q : String × SElem → Bool) :
    ∀ l : List (String × SElem), (l.map Prod.fst).Nodup →
      l.find? (fun p => p.1 == k) = some p0 →
      List.countP q l = List.countP q (odDel l k) + (if q p0 then 1 else 0) := by
  intro l
  induction l with
  | nil => intro _ hfind; simp [List.find?] at hfind
  | cons a l ih =>
    intro hnd hfind
    have hnd2 := hnd
    simp only [List.map_cons, List.nodup_cons] at hnd2
    cases hbeq : (a.1 == k) with
    | true =>
      have ha : a.1 = k := by simpa using hbeq
      have hfind' : some a = some p0 := by
        rw [← hfind]; simp [List.find?_cons, hbeq]
      injection hfind' with hfind'
      subst hfind'
      have hknotin : ∀ p ∈ l, p.1 ≠ k := by
        intro p hp hpk
        apply hnd2.1
        have hmem : p.1 ∈ l.map Prod.fst := List.mem_map_of_mem Prod.fst hp
        rwa [hpk, ← ha] at hmem
      have hfilter : odDel (a :: l) k = l := by
        simp only [odDel, List.filter_cons, hbeq, Bool.not_true, if_false]
        exact List.filter_eq_self.mpr (fun p hp => by simpa using hknotin p hp)
      rw [hfilter, List.countP_cons]
    | false =>
      have hfind' : l.find? (fun p => p.1 == k) = some p0 := by
        rw [← hfind]; simp [List.find?_cons, hbeq]
      have hfilter : odDel (a :: l) k = a :: odDel l k := by
        simp only [odDel, List.filter_cons, hbeq, Bool.not_false, if_true]
      rw [hfilter, List.countP_cons, List.countP_cons, ih hnd2.2 hfind']
      omega

theorem odSet_fresh {l : List (String × SElem)} {k : String} (v : SElem)
    (hk : hasKey l k = false) : odSet l k v = l ++ [(k, v)] := by
  simp [odSet, hk]

theorem secInv_append_fresh {c : SEC} {k : String} (v : SElem)
    (hinv : secInv c) (hk : hasKey c.elements k = false) (hg : goodElem v = true) :
    ((c.elements ++ [(k, v)]).map Prod.fst).Nodup ∧
      (∀ p ∈ c.elements ++ [(k, v)], goodElem p.2 = true) := by
  obtain ⟨_, _, hall, hnd⟩ := hinv
  constructor
  · simp only [List.map_append, List.map_cons, List.map_nil, List.nodup_append]
    refine ⟨hnd, by simp, ?_⟩
    intro x hx
    obtain ⟨p, hp, rfl⟩ := List.mem_map.mp hx
    simpa using hasKey_false_not_mem hk p hp
  · intro p hp
    rcases List.mem_append.mp hp with hp | hp
    · exact hall p hp
    · simp only [List.mem_singleton] at hp
      subst hp
      exact hg

theorem secRunFresh_inv :
    ∀ (ops : List SecOp) (c c' : SEC), secInv c →
      (∀ op ∈ ops, goodOp op = true) →
      secRunFresh c ops = some c' → secInv c' := by
  intro ops
  induction ops with
  | nil =>
    intro c c' hinv _ hrun
    simp only [secRunFresh, Option.some.injEq] at hrun
    exact hrun ▸ hinv
  | cons op rest ih =>
    intro c c' hinv hgood hrun
    have hgoodop : goodOp op = true := hgood op (by simp)
    have hgoodrest : ∀ o ∈ rest, goodOp o = true := fun o ho => hgood o (by simp [ho])
    cases op with
    | set k v =>
      simp only [secRunFresh] at hrun
      cases hk : hasKey c.elements k with
      | true => rw [if_pos (by simp [hk])] at hrun; exact absurd hrun (by simp)
      | false =>
        rw [if_neg (by simp [hk])] at hrun
        cases hro : c.readonly with
        | true =>
          rw [show secSetItem c k v = (c, some .internalServiceError) from by
            simp [secSetItem, hro]] at hrun
          exact absurd hrun (by simp)
        | false =>
          obtain ⟨hext, hev, hall, hnd⟩ := hinv
          have hge := hgoodop
          simp only [goodOp] at hge
          cases v with
          | otherElem f => simp [goodElem] at hge
          | func f =>
            rw [show secSetItem c k (.func f) =
                ({ c with
                    elements := c.elements ++ [(k, .func f)]
                    externals := c.externals + 1 }, none) from by
              simp [secSetItem, hro, odSet_fresh _ hk]] at hrun
            refine ih _ c' ?_ hgoodrest hrun
            have hside := secInv_append_fresh (.func f) ⟨hext, hev, hall, hnd⟩ hk hge
            have hcf : countFuncs (c.elements ++ [(k, SElem.func f)]) =
                countFuncs c.elements + 1 := by
              simp [countFuncs, List.countP_append, List.countP_cons]
            have hce : countEvents (c.elements ++ [(k, SElem.func f)]) =
                countEvents c.elements := by
              simp [countEvents, List.countP_append, List.countP_cons]
            refine ⟨?_, ?_, hside.2, hside.1⟩
            · show c.externals + 1 = (countFuncs (c.elements ++ [(k, SElem.func f)]) : Int)
              rw [hcf, hext]
              omega
            · show c.eventlogs = (countEvents (c.elements ++ [(k, SElem.func f)]) : Int)
              rw [hce, hev]
          | event f =>
            rw [show secSetItem c k (.event f) =
                ({ c with
                    elements := c.elements ++ [(k, .event f)]
                    eventlogs := c.eventlogs + 1 }, none) from by
              simp [secSetItem, hro, odSet_fresh _ hk]] at hrun
            refine ih _ c' ?_ hgoodrest hrun
            have hside := secInv_append_fresh (.event f) ⟨hext, hev, hall, hnd⟩ hk hge
            have hcf : countFuncs (c.elements ++ [(k, SElem.event f)]) =
                countFuncs c.elements := by
              simp [countFuncs, List.countP_append, List.countP_cons]
            have hce : countEvents (c.elements ++ [(k, SElem.event f)]) =
                countEvents c.elements + 1 := by
              simp [countEvents, List.countP_append, List.countP_cons]
            refine ⟨?_, ?_, hside.2, hside.1⟩
            · show c.externals = (countFuncs (c.elements ++ [(k, SElem.event f)]) : Int)
              rw [hcf, hext]
            · show c.eventlogs + 1 = (countEvents (c.elements ++ [(k, SElem.event f)]) : Int)
              rw [hce, hev]
              omega
    | del k =>
      simp only [secRunFresh] at hrun
      cases hro : c.readonly with
      | true =>
        rw [show secDelItem c k = (c, some .internalServiceError) from by
          simp [secDelItem, hro]] at hrun
        exact absurd hrun (by simp)
      | false =>
        obtain ⟨hext, hev, hall, hnd⟩ := hinv
        cases hget : odGet c.elements k with
        | none =>
          rw [show secDelItem c k = (c, some .keyError) from by
            simp [secDelItem, hro, hget]] at hrun
          exact absurd hrun (by simp)
        | some e =>
          obtain ⟨k0, e0, hp0find, hp0e⟩ :
              ∃ k0 e0, c.elements.find? (fun p => p.1 == k) = some (k0, e0) ∧ e0 = e := by
            unfold odGet at hget
            cases hf : c.elements.find? (fun p => p.1 == k) with
            | none => rw [hf] at hget; exact absurd hget (by simp)
            | some p0 =>
              obtain ⟨k1, e1⟩ := p0
              rw [hf] at hget
              simp only [Option.map] at hget
              injection hget with hget
              exact ⟨k1, e1, hf ▸ rfl, hget⟩
          subst hp0e
          have hp0mem : (k0, e0) ∈ c.elements := List.mem_of_find?_eq_some hp0find
          have hp0good : goodElem e0 = true := hall _ hp0mem
          have hdelgood : ∀ p ∈ odDel c.elements k, goodElem p.2 = true := by
            intro p hp
            exact hall p (List.mem_of_mem_filter hp)
          have hdelnd : ((odDel c.elements k).map Prod.fst).Nodup :=
            ((List.filter_sublist _).map Prod.fst).nodup hnd
          have hqf := countP_odDel k (k0, e0)
            (fun p => match p.2 with | .func _ => true | _ => false) c.elements hnd hp0find
          have hqe := countP_odDel k (k0, e0)
            (fun p => match p.2 with | .event _ => true | _ => false) c.elements hnd hp0find
          cases e0 with
          | otherElem f => simp [goodElem] at hp0good
          | func f =>
            have hfl : f.eventlog = false := by simpa [goodElem] using hp0good
            simp at hqf hqe
            rw [show secDelItem c k =
                ({ c with
                    elements := odDel c.elements k
                    externals := c.externals - 1 }, none) from by
              simp [secDelItem, odGet, hro, hp0find, elemFlag, hfl]] at hrun
            refine ih _ c' ?_ hgoodrest hrun
            refine ⟨?_, ?_, hdelgood, hdelnd⟩
            · show c.externals - 1 = (countFuncs (odDel c.elements k) : Int)
              unfold countFuncs at hext ⊢
              omega
            · show c.eventlogs = (countEvents (odDel c.elements k) : Int)
              unfold countEvents at hev ⊢
              omega
          | event f =>
            have hfl : f.eventlog = true := by simpa [goodElem] using hp0good
            simp at hqf hqe
            rw [show secDelItem c k =
                ({ c with
                    elements := odDel c.elements k
                    eventlogs := c.eventlogs - 1 }, none) from by
              simp [secDelItem, odGet, hro, hp0find, elemFlag, hfl]] at hrun
            refine ih _ c' ?_ hgoodrest hrun
            refine ⟨?_, ?_, hdelgood, hdelnd⟩
            · show c.externals = (countFuncs (odDel c.elements k) : Int)
              unfold countFuncs at hext ⊢
              omega
            · show c.eventlogs - 1 = (countEvents (odDel c.elements k) : Int)
              unfold countEvents at hev ⊢
              omega


theorem secRunFresh_run :
    ∀ (ops : List SecOp) (c c' : SEC),
      secRunFresh c ops = some c' → secRun c ops = some c' := by
  intro ops
  induction ops with
  | nil => intro c c' h; exact h
  | cons op rest ih =>
    intro c c' h
    cases op with
    | set k v =>
      simp only [secRunFresh] at h
      by_cases hk : hasKey c.elements k = true
      · rw [if_pos hk] at h; exact absurd h (by simp)
      · rw [if_neg hk] at h
        simp only [secRun]
        cases hs : secSetItem c k v with
        | mk c1 err =>
          rw [hs] at h
          cases err with
          | none => exact ih c1 c' h
          | some e => exact absurd h (by simp)
    | del k =>
      simp only [secRunFresh] at h
      simp only [secRun]
      cases hs : secDelItem c k with
      | mk c1 err =>
        rw [hs] at h
        cases err with
        | none => exact ih c1 c' h
        | some e => exact absurd h (by simp)

/-! ## Claim theorems -/

/-- C1 (counterexample): the integer key `1` and the text key `"0x1"` are
distinct keys of supported types, yet `encode_key` sends both to the byte
sequence `b"0x1|"` — so the encodings are equal, and in particular each is
a byte-prefix of the other, refuting prefix-freeness and injectivity across
keys as stated. -/
theorem claim1_counterexample :
    Key.kint 1 ≠ Key.kstr ['0', 'x', '1'] ∧
    encodeKey (Key.kint 1) = encodeKey (Key.kstr ['0', 'x', '1']) ∧
    encodeKey (Key.kint 1) = Except.ok ['0', 'x', '1', '|'] :=
  ⟨by decide, by decide, by decide⟩

/-- C1 (amended): for two distinct keys that `encode_key` accepts, provided
no text key contains the delimiter byte `|` and no text key spells the
`hex` rendering of an integer key it is compared with, the encoding of one
key is never a byte-prefix of the encoding of the other. -/
theorem claim1_amended (k1 k2 : Key) (e1 e2 : Bytes)
    (h1 : encodeKey k1 = .ok e1) (h2 : encodeKey k2 = .ok e2)
    (hne : k1 ≠ k2) (hb1 : barFree k1 = true) (hb2 : barFree k2 = true)
    (hcol : noHexCollision k1 k2 = true) :
    ¬ e1 <+: e2 := by
  intro hpre
  cases k1 with
  | kaddr a => rw [encodeKey_kaddr] at h1; exact absurd h1 (by simp)
  | kother => rw [encodeKey_kother] at h1; exact absurd h1 (by simp)
  | kint i =>
    rw [encodeKey_kint] at h1
    injection h1 with h1
    subst h1
    cases k2 with
    | kaddr a => rw [encodeKey_kaddr] at h2; exact absurd h2 (by simp)
    | kother => rw [encodeKey_kother] at h2; exact absurd h2 (by simp)
    | kint j =>
      rw [encodeKey_kint] at h2
      injection h2 with h2
      subst h2
      have heq := append_delim_payload_inj (pyHex_no_bar j) hpre
      exact hne (by rw [pyHex_injective heq])
    | kstr s =>
      rw [encodeKey_kstr] at h2
      injection h2 with h2
      subst h2
      have hbar : '|' ∉ s := of_decide_eq_true hb2
      have heq := append_delim_payload_inj hbar hpre
      have hcol' : s ≠ pyHex i := of_decide_eq_true hcol
      exact hcol' heq.symm
  | kstr s =>
    rw [encodeKey_kstr] at h1
    injection h1 with h1
    subst h1
    cases k2 with
    | kaddr a => rw [encodeKey_kaddr] at h2; exact absurd h2 (by simp)
    | kother => rw [encodeKey_kother] at h2; exact absurd h2 (by simp)
    | kint j =>
      rw [encodeKey_kint] at h2
      injection h2 with h2
      subst h2
      have heq := append_delim_payload_inj (pyHex_no_bar j) hpre
      have hcol' : s ≠ pyHex j := of_decide_eq_true hcol
      exact hcol' heq
    | kstr s2 =>
      rw [encodeKey_kstr] at h2
      injection h2 with h2
      subst h2
      have hbar : '|' ∉ s2 := of_decide_eq_true hb2
      have heq := append_delim_payload_inj hbar hpre
      exact hne (by rw [heq])

/-- C1 (witness): the amended statement applied to the integer key `0` and
the delimiter-free text key `"a"`. -/
theorem claim1_witness :
    encodeKey (Key.kint 0) = Except.ok ['0', 'x', '0', '|'] ∧
    encodeKey (Key.kstr ['a']) = Except.ok ['a', '|'] ∧
    Key.kint 0 ≠ Key.kstr ['a'] ∧
    barFree (Key.kint 0) = true ∧
    barFree (Key.kstr ['a']) = true ∧
    noHexCollision (Key.kint 0) (Key.kstr ['a']) = true ∧
    ¬ (['0', 'x', '0', '|'] <+: ['a', '|']) :=
  ⟨by decide, by decide, by decide, by decide, by decide, by decide,
    claim1_amended (Key.kint 0) (Key.kstr ['a']) ['0', 'x', '0', '|'] ['a', '|']
      (by decide) (by decide) (by decide) (by decide) (by decide) (by decide)⟩

/-- C2: `encode_value` crashes with `AttributeError` on every `bytes` value
(the returned `bytes` object has no `encode` attribute), so the claimed
five-type round-trip fails for `bytes`; for the remaining four semantic
types (`int`, `str`, `bool`, `Address`) encoding succeeds and
`decode_object` is its exact inverse. -/
theorem claim2_theorem :
    encodeValue (Value.vbytes []) = .error .attributeError ∧
    (∀ bs : Bytes, encodeValue (.vbytes bs) = .error .attributeError) ∧
    (∀ i : Int,
      (encodeValue (.vint i)).bind (fun b => decodeObject (some b) .intT) =
        .ok (some (.vint i))) ∧
    (∀ s : Bytes,
      (encodeValue (.vstr s)).bind (fun b => decodeObject (some b) .strT) =
        .ok (some (.vstr s))) ∧
    (∀ b : Bool,
      (encodeValue (.vbool b)).bind (fun x => decodeObject (some x) .boolT) =
        .ok (some (.vbool b))) ∧
    (∀ a : Address,
      (encodeValue (.vaddr a)).bind (fun b => decodeObject (some b) .addrT) =
        .ok (some (.vaddr a))) := by
  refine ⟨rfl, fun _ => rfl, ?_, fun _ => rfl, ?_, fun _ => rfl⟩
  · intro i
    have h1 : (encodeValue (.vint i)).bind (fun b => decodeObject (some b) .intT) =
        decodeObject (some (pyHex i)) .intT := rfl
    have h2 : decodeObject (some (pyHex i)) .intT =
        (pyIntBase16 (pyHex i)).bind (fun n => pure (some (.vint n))) := rfl
    rw [h1, h2, pyIntBase16_pyHex]
    rfl
  · intro b
    cases b <;> decide

/-- C3: `encode_key` raises `IconScoreBaseException` for every `Address`
key (its `isinstance` chain only handles `int` and `str`, even though the
type variable `K` and `DictDB.__check_tuple_keys` declare `Address` a
supported key type) and for keys of any other type, while an integer key
renders as Python's lowercase unpadded `hex` and a text key as itself, each
followed by the single delimiter byte `|`. -/
theorem claim3_theorem :
    (∀ a : Address, encodeKey (.kaddr a) = .error .iconScoreBaseException) ∧
    encodeKey Key.kother = .error .iconScoreBaseException ∧
    (∀ i : Int, encodeKey (.kint i) = .ok (pyHex i ++ ['|'])) ∧
    (∀ s : Bytes, encodeKey (.kstr s) = .ok (s ++ ['|'])) :=
  ⟨fun _ => rfl, rfl, fun _ => rfl, fun _ => rfl⟩

/-- C4: every `DictDB.__setitem__` and `__getitem__` call — whatever the
key tuple, its length, or the stored state — fails with `TypeError`,
because both methods invoke `DictDB.__check_tuple_keys(keys)` unbound
(passing `keys` as `self`), so the depth check is never reached and no
access can succeed. -/
theorem claim4_theorem :
    ∀ (store : Store) (d : DictDBState) (keys : KeysArg) (v : Value),
      dictSetItem store d keys v = .error .typeError ∧
      dictGetItem store d keys = .error .typeError :=
  fun _ _ _ _ => ⟨rfl, rfl⟩

/-- C5: `ListDB.__init__` always fails with `TypeError` — line 160 calls
`ListDB.__get_size()` on the class without a `self` argument — so no
`ListDB` over any namespace can even be constructed, let alone reach
length 0 or persist a length of 2 under the `size` key. -/
theorem claim5_theorem :
    ∀ (varKey : Bytes) (db : SubDB) (vt : VType),
      listDBInit varKey db vt = .error .typeError :=
  fun _ _ _ => rfl

/-- C6: `ListDB.pop` and indexed `ListDB.get` fail with plain `TypeError`
(the `raise NotImplemented()` statements call the non-callable
`NotImplemented` singleton), not with the distinguishable
`NotImplementedError` sentinel the claim requires. -/
theorem claim6_theorem :
    ∀ (l : ListDBState) (keys : KeysArg),
      listPop l = .error .typeError ∧ listGet l keys = .error .typeError :=
  fun _ _ => ⟨rfl, rfl⟩

/-- C7: `verify_score_flag` rejects {ReadOnly, Payable}, rejects {ReadOnly}
alone, accepts {External, ReadOnly}, rejects {EventLog, External}, accepts
{EventLog} alone, accepts {Interface} alone, rejects EventLog combined with
any other flag, and rejects Interface combined with any other flag — each
rejection with the illegal-format condition. -/
theorem claim7_theorem :
    verifyScoreFlag ⟨true, false, true, false, false⟩ = .error .illegalFormat ∧
    verifyScoreFlag ⟨true, false, false, false, false⟩ = .error .illegalFormat ∧
    verifyScoreFlag ⟨true, true, false, false, false⟩ = .ok () ∧
    verifyScoreFlag ⟨false, true, false, true, false⟩ = .error .illegalFormat ∧
    verifyScoreFlag eventlogOnly = .ok () ∧
    verifyScoreFlag interfaceOnly = .ok () ∧
    (∀ f : ScoreFlag, f.eventlog = true → f ≠ eventlogOnly →
      verifyScoreFlag f = .error .illegalFormat) ∧
    (∀ f : ScoreFlag, f.interface = true → f ≠ interfaceOnly →
      verifyScoreFlag f = .error .illegalFormat) := by
  decide

/-- C7 (witness): the universally quantified EventLog rule of the claim
theorem applied to the combination {EventLog, Interface}. -/
theorem claim7_witness :
    verifyScoreFlag ⟨false, false, false, true, true⟩ = .error .illegalFormat :=
  claim7_theorem.2.2.2.2.2.2.1 ⟨false, false, false, true, true⟩ rfl (by decide)

/-- C8: every container produced by `create_score_elements` is frozen, and
on a frozen container both `__setitem__` and `__delitem__` raise the
internal-consistency condition (`InternalServiceErrorException`) while
leaving the stored elements, counters and flags exactly unchanged. -/
theorem claim8_theorem (ms : List (String × ScoreFlag)) (c : SEC)
    (h : createScoreElements ms = .ok c) :
    ∀ (k : String) (v : SElem),
      secSetItem c k v = (c, some PyErr.internalServiceError) ∧
      secDelItem c k = (c, some PyErr.internalServiceError) := by
  have hro : c.readonly = true := by
    unfold createScoreElements at h
    cases hgo : createGo SEC.init ms with
    | error e =>
      rw [hgo] at h
      exact absurd h (by simp [Bind.bind, Except.bind])
    | ok c0 =>
      rw [hgo] at h
      have h' : Except.ok (secFreeze c0) = Except.ok c := h
      injection h' with h'
      rw [← h']
      rfl
  intro k v
  exact ⟨by simp [secSetItem, hro], by simp [secDelItem, hro]⟩

/-- Example member table: one external method. -/
def demoMembers : List (String × ScoreFlag) :=
  [("transfer", ⟨false, true, false, false, false⟩)]

/-- The frozen container `create_score_elements` builds from
`demoMembers`. -/
def demoFrozen : SEC :=
  ⟨[("transfer", SElem.func ⟨false, true, false, false, false⟩)], 1, 0, true⟩

/-- C8 (witness): the claim theorem applied to the concrete frozen registry
built from `demoMembers`. -/
theorem claim8_witness :
    secSetItem demoFrozen "extra" (SElem.func ⟨false, true, false, false, false⟩) =
      (demoFrozen, some PyErr.internalServiceError) ∧
    secDelItem demoFrozen "transfer" = (demoFrozen, some PyErr.internalServiceError) := by
  have h := claim8_theorem demoMembers demoFrozen (by decide)
  exact ⟨(h "extra" (SElem.func ⟨false, true, false, false, false⟩)).1,
    (h "transfer" (SElem.func ⟨false, true, false, false, false⟩)).2⟩

/-- C9: `IconScoreException` maps integer offset 0 to code 32 (the band
base), clamps any integer offset whose sum with the base exceeds 99 to the
ceiling 99, always lands in the band [32, 99], and rejects a non-integer
offset with the invalid-parameter condition before any banding. -/
theorem claim9_theorem :
    iconScoreExceptionCode (.intIdx 0) = .ok 32 ∧
    (∀ i : Int, 32 + i > 99 → iconScoreExceptionCode (.intIdx i) = .ok 99) ∧
    (∀ i : Int, ∃ c : Int,
      iconScoreExceptionCode (.intIdx i) = .ok c ∧ 32 ≤ c ∧ c ≤ 99) ∧
    iconScoreExceptionCode IdxArg.nonIntIdx = .error .invalidParameter := by
  refine ⟨by decide, ?_, ?_, rfl⟩
  · intro i hi
    simp only [iconScoreExceptionCode, SCORE_ERROR_CODE, END_CODE]
    rw [if_neg (by omega), if_pos (by omega)]
  · intro i
    simp only [iconScoreExceptionCode, SCORE_ERROR_CODE, END_CODE]
    refine ⟨_, rfl, ?_, ?_⟩ <;> split_ifs <;> omega

/-- C9 (witness): the clamping rule of the claim theorem applied to offset
100, which lands on the ceiling 99. -/
theorem claim9_witness : iconScoreExceptionCode (.intIdx 100) = .ok 99 :=
  claim9_theorem.2.1 100 (by decide)

/-- C10 (counterexample): two successful `__setitem__` calls that store a
`Function` element under the same name leave one stored `Function` but an
externals counter of 2, refuting the claimed counter/contents equality for
arbitrary successful insertion sequences. -/
theorem claim10_counterexample :
    secRun SEC.init
        [SecOp.set "act" (SElem.func ⟨false, true, false, false, false⟩),
         SecOp.set "act" (SElem.func ⟨false, true, false, false, false⟩)] =
      some ⟨[("act", SElem.func ⟨false, true, false, false, false⟩)], 2, 0, false⟩ ∧
    countFuncs [("act", SElem.func ⟨false, true, false, false, false⟩)] = 1 :=
  ⟨by decide, by decide⟩

/-- C10 (amended): starting from a fresh not-yet-frozen container, after any
sequence of successful `__setitem__` insertions under names not already
present — of `Function` or `EventLog` elements whose EVENTLOG flag agrees
with their kind — and successful `__delitem__` deletions, the externals
counter equals the number of stored `Function` elements and the eventlogs
counter equals the number of stored `EventLog` elements. -/
theorem claim10_amended (ops : List SecOp) (c' : SEC)
    (hgood : ∀ op ∈ ops, goodOp op = true)
    (hrun : secRunFresh SEC.init ops = some c') :
    c'.externals = (countFuncs c'.elements : Int) ∧
    c'.eventlogs = (countEvents c'.elements : Int) := by
  have hinv : secInv SEC.init := by
    refine ⟨rfl, rfl, ?_, ?_⟩ <;> simp [SEC.init]
  have hfin := secRunFresh_inv ops SEC.init c' hinv hgood hrun
  exact ⟨hfin.1, hfin.2.1⟩

/-- Example mutation sequence: insert a function, insert an eventlog, then
delete the function. -/
def demoOps10 : List SecOp :=
  [SecOp.set "act" (SElem.func ⟨false, true, false, false, false⟩),
   SecOp.set "Transfer" (SElem.event ⟨false, false, false, true, false⟩),
   SecOp.del "act"]

/-- The container state reached by `demoOps10`. -/
def demoSEC10 : SEC :=
  ⟨[("Transfer", SElem.event ⟨false, false, false, true, false⟩)], 0, 1, false⟩

/-- C10 (witness): the amended statement applied to `demoOps10`. -/
theorem claim10_witness :
    demoSEC10.externals = (countFuncs demoSEC10.elements : Int) ∧
    demoSEC10.eventlogs = (countEvents demoSEC10.elements : Int) :=
  claim10_amended demoOps10 demoSEC10 (by decide) (by decide)

end IconService
